import Mathlib

/-!
Verification of the RAG ingestion-and-retrieval pipeline of `src/app.py`
(a Streamlit chat application that indexes PDF chunks in Azure AI Search).

The remote Azure AI Search service is modelled as an explicit index state
(a list of key/content records) together with injected request outcomes
(`Net`): every remote call in the source is a synchronous unary request
whose only failure mode visible to the code is `requests.RequestException`,
modelled here by a boolean failure flag per request kind.  Each embedded
operation additionally returns the list of requests it issued, so that
"no delete request is made" style properties can be stated.
-/

namespace Demo

/-- An indexed document record `{key field: ..., content field: ...}` as
built by `index_documents_to_azure_search`.  Keys in the source are
`str(uuid.uuid4())`, fresh on every call and collision-free; they are
modelled as naturals drawn from a monotone counter, which makes freshness
explicit. -/
structure Record where
  key : Nat
  content : String
deriving Repr, DecidableEq

/-- The requests the pipeline issues against the remote search service. -/
inductive Request where
  | listKeys
  | bulkDelete (keys : List Nat)
  | bulkUpload (recs : List Record)
deriving Repr, DecidableEq

/-- Injected outcome of each kind of remote request: `true` means the
request raises `requests.RequestException` (network error or non-2xx
status via `raise_for_status`). -/
structure Net where
  listFails : Bool
  deleteFails : Bool
  uploadFails : Bool
deriving Repr, DecidableEq

/-- The all-requests-succeed network. -/
def netOK : Net :=
  { listFails := false, deleteFails := false, uploadFails := false }

/-- Embedding of `clear_azure_search_index` (src/app.py lines 52-84).
It GETs the list of all record keys; if that fails it returns `False`.
If no keys exist it returns `True` without any further request.  Otherwise
it POSTs one bulk delete of all keys and returns `True` on success,
`False` on `RequestException`.  Returns (result, new index state, requests
issued). -/
def clear_azure_search_index (net : Net) (idx : List Record) :
    Bool × List Record × List Request :=
  if net.listFails then
    (false, idx, [Request.listKeys])
  else
    let doc_keys := idx.map Record.key
    if doc_keys.isEmpty then
      (true, idx, [Request.listKeys])
    else if net.deleteFails then
      (false, idx, [Request.listKeys, Request.bulkDelete doc_keys])
    else
      (true, [], [Request.listKeys, Request.bulkDelete doc_keys])

/-- The records built by `index_documents_to_azure_search` for one call:
one `upload` action per chunk, each with a freshly generated key
(`str(uuid.uuid4())` in the source, modelled by the counter values
`ctr, ctr+1, ...`). -/
def documents_to_upload (ctr : Nat) : List String → List Record
  | [] => []
  | d :: ds => { key := ctr, content := d } :: documents_to_upload (ctr + 1) ds

/-- Embedding of `index_documents_to_azure_search` (src/app.py lines
109-144).  It builds one record per chunk with a fresh key and POSTs a
single bulk upload of the whole batch; returns `True` on success and
`False` on `RequestException`.  Returns (result, new index state, next
fresh-key counter, requests issued). -/
def index_documents_to_azure_search (net : Net) (ctr : Nat)
    (idx : List Record) (docs : List String) :
    Bool × List Record × Nat × List Request :=
  let recs := documents_to_upload ctr docs
  if net.uploadFails then
    (false, idx, ctr + docs.length, [Request.bulkUpload recs])
  else
    (true, idx ++ recs, ctr + docs.length, [Request.bulkUpload recs])

/-- The fixed Korean failure message returned by `search_azure_ai` when
the search request fails (src/app.py line 171). -/
def search_failure_message : String :=
  "검색 서비스 호출에 실패했습니다. CLI 콘솔의 에러 로그를 확인해주세요."

/-- Embedding of `search_azure_ai` (src/app.py lines 148-173).  The
response is `none` when the POST raises `RequestException`, otherwise the
list of returned documents, each an optional content field
(`doc.get(CONTENT_FIELD, "")` defaults a missing field to the empty
string).  On failure it returns the fixed failure message; on success it
joins the contents with a blank-line separator in response order. -/
def search_azure_ai (resp : Option (List (Option String))) : String :=
  match resp with
  | none => search_failure_message
  | some docs => String.intercalate "\n\n" (docs.map (fun d => d.getD ""))

/-- Embedding of the page-text concatenation of `load_and_split_pdf`
(src/app.py line 97): `"".join(page.extract_text() for page in
reader.pages if page.extract_text())` — pages whose extraction yields no
text are skipped (a skipped page contributes nothing), and the remaining
page texts are concatenated with no separator.  Each page's extracted
text is given as a string, the empty string standing for a page with no
extractable text. -/
def extract_full_text (pages : List String) : String :=
  (pages.filter (fun t => t ≠ "")).foldl (fun r s => r ++ s) ""

/-- One step of the greedy line packer: lines are accumulated into the
current chunk while the running size stays within the maximum; a line
that does not fit closes the current chunk and starts a new one. -/
def packStep (maxSize : Nat) (acc : List (List String) × List String × Nat)
    (l : String) : List (List String) × List String × Nat :=
  let done := acc.1
  let cur := acc.2.1
  let size := acc.2.2
  if cur.isEmpty then
    (done, [l], l.length)
  else if size + l.length ≤ maxSize then
    (done, cur ++ [l], size + l.length)
  else
    (done ++ [cur], [l], l.length)

/-- Greedily packs a sequence of lines into chunks (each chunk a list of
consecutive lines): lines are never split, chunk boundaries fall between
lines, and a line longer than the maximum gets a chunk of its own. -/
def packLines (maxSize : Nat) (lines : List String) : List (List String) :=
  let r := lines.foldl (packStep maxSize) ([], [], 0)
  if r.2.1.isEmpty then r.1 else r.1 ++ [r.2.1]

/-- Modelled from the spec: `semantic_kernel.text.text_chunker.split_plaintext_lines`
(called at src/app.py line 101) is library code not present in this
repository.  Per the spec it splits the text into bounded-size chunks so
that split boundaries fall on line breaks, never breaking in the middle
of a line, keeping a line longer than the maximum intact in its own
chunk, and produces zero chunks for empty text. -/
def split_plaintext_lines (text : String) (maxSize : Nat) : List String :=
  if text = "" then []
  else (packLines maxSize (text.splitOn "\n")).map (String.intercalate "\n")

/-- Embedding of the extract-and-split part of `load_and_split_pdf`
(src/app.py lines 95-101): concatenate the pages' extracted text with no
separator and split it with maximum chunk size 1000. -/
def load_and_split (pages : List String) : List String :=
  split_plaintext_lines (extract_full_text pages) 1000

/-- Embedding of the temp-file handling of `load_and_split_pdf`
(src/app.py lines 90-105).  The file system is the list of existing
paths; `tmpPath` is the uniquely named location chosen by
`tempfile.NamedTemporaryFile` (unique: not already present).  The input
is written there, then extraction runs inside `try`, and the `finally`
block removes the path on both the success and the raising path;
extraction/splitting failures (modelled by `extract = .error e`) are
re-raised after the removal.  Returns (outcome, final file system). -/
def load_and_split_pdf (fs : List String) (tmpPath : String)
    (extract : Except String (List String)) :
    Except String (List String) × List String :=
  let fs1 := fs ++ [tmpPath]
  match extract with
  | Except.ok pages => (Except.ok (load_and_split pages), fs1.erase tmpPath)
  | Except.error e => (Except.error e, fs1.erase tmpPath)

/-- Session state owned by the Streamlit script: the RAG-enabled flag and
the identity (filename) of the last successfully ingested document
(`none` models the key being absent from `st.session_state`), plus the
chat message history (`none` models `"messages"` not yet initialised;
messages are (role, content) pairs). -/
structure SessionState where
  rag_enabled : Bool
  last_uploaded_file : Option String
  messages : Option (List (String × String))
deriving Repr, DecidableEq

/-- The remote-service world threaded through an ingestion attempt: the
index contents and the fresh-key counter. -/
structure World where
  index : List Record
  ctr : Nat
deriving Repr, DecidableEq

/-- Outcome of one run of the sidebar ingestion orchestration. -/
inductive IngestOutcome where
  | noop
  | clearFailed
  | uploadFailed
  | ready
deriving Repr, DecidableEq

/-- The success notice appended to the history on a completed ingestion
(src/app.py line 221). -/
def upload_success_message (name : String) : String :=
  "✅ **" ++ name ++ "** 파일의 내용을 성공적으로 학습했습니다.\n\n이제부터 파일 내용과 관련된 질문에 답변할 수 있습니다."

/-- Embedding of the sidebar ingestion orchestration (src/app.py lines
204-229).  If a file is uploaded and its name differs from
`last_uploaded_file` (or that key is absent), the script runs
`clear_azure_search_index`; on success it splits the PDF (the chunks are
the `chunks` argument, extraction is not caught at this layer) and runs
`index_documents_to_azure_search`; on success it sets
`rag_enabled = True`, records the new filename, and appends a success
notice if the history exists.  On either remote failure only an error is
displayed; the session state is not written.  Returns (new session
state, new world, outcome, requests issued). -/
def sidebar_handler (net : Net) (st : SessionState) (w : World)
    (uploaded : Option String) (chunks : List String) :
    SessionState × World × IngestOutcome × List Request :=
  match uploaded with
  | none => (st, w, IngestOutcome.noop, [])
  | some name =>
    if st.last_uploaded_file = some name then
      (st, w, IngestOutcome.noop, [])
    else
      let c := clear_azure_search_index net w.index
      if c.1 then
        let u := index_documents_to_azure_search net w.ctr c.2.1 chunks
        if u.1 then
          ({ rag_enabled := true,
             last_uploaded_file := some name,
             messages := match st.messages with
               | some ms => some (ms ++ [("assistant", upload_success_message name)])
               | none => none },
           { index := u.2.1, ctr := u.2.2.1 },
           IngestOutcome.ready, c.2.2 ++ u.2.2.2)
        else
          (st, { index := u.2.1, ctr := u.2.2.1 },
           IngestOutcome.uploadFailed, c.2.2 ++ u.2.2.2)
      else
        (st, { w with index := c.2.1 }, IngestOutcome.clearFailed, c.2.2)

/-- The prompt payload handed to the generation capability: the grounded
branch invokes the fixed template with named `input` and `context`
arguments, the ungrounded branch passes the raw query alone. -/
inductive GenCall where
  | grounded (input : String) (context : String)
  | plain (input : String)
deriving Repr, DecidableEq

/-- Embedding of the chat input handler (src/app.py lines 241-284).  The
user message is appended to the history; if `rag_enabled` (defaulting to
false when absent) the context is built by `search_azure_ai` and the
grounded template is invoked with it, otherwise the raw prompt is sent.
A generation success (`gen = .ok response`) appends the response to the
history; a generation failure is caught at this top level and only
displays an error, leaving the history and RAG state as they were after
the user message.  Returns (new session state, the generation call
issued). -/
def chat_handler (st : SessionState) (prompt : String)
    (searchResp : Option (List (Option String)))
    (gen : Except String String) : SessionState × GenCall :=
  let msgs0 := st.messages.getD [] ++ [("user", prompt)]
  let call :=
    if st.rag_enabled then GenCall.grounded prompt (search_azure_ai searchResp)
    else GenCall.plain prompt
  match gen with
  | Except.ok response =>
    ({ st with messages := some (msgs0 ++ [("assistant", response)]) }, call)
  | Except.error _ =>
    ({ st with messages := some msgs0 }, call)

/-- Written from the spec's words, for comparison with the source's
`"\n\n".join(...)`: the retrieved contents "joined with exactly one
blank-line separator between adjacent entries", defined by direct
recursion on the entry list. -/
def spec_context_join : List String → String
  | [] => ""
  | [x] => x
  | x :: y :: xs => x ++ "\n\n" ++ spec_context_join (y :: xs)

/-- A chunk respects the size policy when it is a single (possibly
oversize) line or its lines' total size is within the maximum. -/
def goodChunk (maxSize : Nat) (g : List String) : Prop :=
  g.length ≤ 1 ∨ (g.map String.length).sum ≤ maxSize

/- ------------------------------------------------------------------ -/
/- Supporting lemmas                                                   -/
/- ------------------------------------------------------------------ -/

theorem packStep_foldl_join (M : Nat) :
    ∀ (ls : List String) (done : List (List String)) (cur : List String) (size : Nat),
      (ls.foldl (packStep M) (done, cur, size)).1.flatten ++
        (ls.foldl (packStep M) (done, cur, size)).2.1 = done.flatten ++ cur ++ ls := by
  intro ls
  induction ls with
  | nil => intro done cur size; simp
  | cons l rest ih =>
    intro done cur size
    rw [List.foldl_cons]
    cases hc : cur.isEmpty with
    | true =>
      have hcur : cur = [] := List.isEmpty_iff.mp hc
      subst hcur
      simp only [packStep, List.isEmpty_nil, if_true]
      rw [ih]
      simp
    | false =>
      by_cases hs : size + l.length ≤ M
      · simp only [packStep, hc, Bool.false_eq_true, if_false, if_pos hs]
        rw [ih]
        simp
      · simp only [packStep, hc, Bool.false_eq_true, if_false, if_neg hs]
        rw [ih]
        simp

theorem packStep_foldl_good (M : Nat) :
    ∀ (ls : List String) (done : List (List String)) (cur : List String) (size : Nat),
      size = (cur.map String.length).sum →
      (∀ g ∈ done, goodChunk M g) →
      goodChunk M cur →
      ((∀ g ∈ (ls.foldl (packStep M) (done, cur, size)).1, goodChunk M g) ∧
        goodChunk M (ls.foldl (packStep M) (done, cur, size)).2.1) := by
  intro ls
  induction ls with
  | nil => intro done cur size _ hdone hcur; exact ⟨hdone, hcur⟩
  | cons l rest ih =>
    intro done cur size hsize hdone hcur
    rw [List.foldl_cons]
    cases hc : cur.isEmpty with
    | true =>
      simp only [packStep, hc, if_true]
      exact ih done [l] l.length (by simp) hdone (Or.inl (by simp))
    | false =>
      by_cases hs : size + l.length ≤ M
      · simp only [packStep, hc, Bool.false_eq_true, if_false, if_pos hs]
        refine ih done (cur ++ [l]) (size + l.length) ?_ hdone (Or.inr ?_)
        · simp [hsize]
        · rw [List.map_append, List.sum_append]
          simpa [hsize] using hs
      · simp only [packStep, hc, Bool.false_eq_true, if_false, if_neg hs]
        refine ih (done ++ [cur]) [l] l.length (by simp) ?_ (Or.inl (by simp))
        intro g hg
        rcases List.mem_append.mp hg with h1 | h2
        · exact hdone g h1
        · rw [List.mem_singleton.mp h2]
          exact hcur

theorem packLines_join (M : Nat) (lines : List String) :
    (packLines M lines).flatten = lines := by
  have h := packStep_foldl_join M lines [] [] 0
  simp only [packLines]
  cases he : (lines.foldl (packStep M) ([], [], 0)).2.1.isEmpty with
  | true =>
    rw [if_pos rfl]
    rw [List.isEmpty_iff.mp he] at h
    simpa using h
  | false =>
    rw [if_neg (by simp)]
    rw [List.flatten_append]
    simpa using h

theorem packLines_good (M : Nat) (lines : List String) :
    ∀ g ∈ packLines M lines, goodChunk M g := by
  have h := packStep_foldl_good M lines [] [] 0 (by simp) (by simp) (Or.inl (by simp))
  simp only [packLines]
  cases he : (lines.foldl (packStep M) ([], [], 0)).2.1.isEmpty with
  | true =>
    rw [if_pos rfl]
    exact h.1
  | false =>
    rw [if_neg (by simp)]
    intro g hg
    rcases List.mem_append.mp hg with h1 | h2
    · exact h.1 g h1
    · rw [List.mem_singleton.mp h2]
      exact h.2

theorem goodChunk_oversize_alone (M : Nat) (g : List String) (l : String)
    (hg : goodChunk M g) (hl : l ∈ g) (hlen : M < l.length) : g = [l] := by
  rcases hg with h1 | h2
  · match g, hl with
    | [x], hx => rw [List.mem_singleton.mp hx]
    | x :: y :: ys, _ => simp at h1
  · exfalso
    have : l.length ≤ (g.map String.length).sum :=
      List.single_le_sum (by intro x _; exact Nat.zero_le x) _
        (List.mem_map_of_mem String.length hl)
    omega

theorem intercalate_go_append (s : String) (as : List String) :
    ∀ acc₁ acc₂ : String,
      String.intercalate.go (acc₁ ++ acc₂) s as =
        acc₁ ++ String.intercalate.go acc₂ s as := by
  induction as with
  | nil => intro acc₁ acc₂; rfl
  | cons a as ih =>
    intro acc₁ acc₂
    show String.intercalate.go (acc₁ ++ acc₂ ++ s ++ a) s as = _
    rw [String.append_assoc acc₁ acc₂ s, String.append_assoc acc₁ (acc₂ ++ s) a, ih]
    rfl

theorem intercalate_cons_cons (s a b : String) (l : List String) :
    String.intercalate s (a :: b :: l) = a ++ s ++ String.intercalate s (b :: l) := by
  show String.intercalate.go (a ++ s ++ b) s l = _
  rw [intercalate_go_append s l (a ++ s) b]
  rfl

theorem intercalate_eq_spec_context_join :
    ∀ l : List String, String.intercalate "\n\n" l = spec_context_join l
  | [] => rfl
  | [_] => rfl
  | x :: y :: xs => by
    rw [intercalate_cons_cons, intercalate_eq_spec_context_join (y :: xs)]
    rfl

theorem foldl_append_filter (pages : List String) :
    ∀ acc : String,
      (pages.filter (fun t => t ≠ "")).foldl (fun r s => r ++ s) acc =
        pages.foldl (fun r s => r ++ s) acc := by
  induction pages with
  | nil => intro acc; rfl
  | cons p rest ih =>
    intro acc
    by_cases hp : p = ""
    · subst hp
      rw [List.filter_cons_of_neg (by simp)]
      rw [ih, List.foldl_cons, String.append_empty]
    · rw [List.filter_cons_of_pos (by simp [hp])]
      rw [List.foldl_cons, List.foldl_cons, ih]

theorem extract_full_text_eq (pages : List String) :
    extract_full_text pages = pages.foldl (fun r s => r ++ s) "" :=
  foldl_append_filter pages ""

theorem documents_to_upload_length (docs : List String) :
    ∀ ctr : Nat, (documents_to_upload ctr docs).length = docs.length := by
  induction docs with
  | nil => intro ctr; rfl
  | cons d ds ih => intro ctr; simp [documents_to_upload, ih]

theorem documents_to_upload_contents (docs : List String) :
    ∀ ctr : Nat, (documents_to_upload ctr docs).map Record.content = docs := by
  induction docs with
  | nil => intro ctr; rfl
  | cons d ds ih => intro ctr; simp [documents_to_upload, ih]

theorem documents_to_upload_key_bounds (docs : List String) :
    ∀ ctr k, k ∈ (documents_to_upload ctr docs).map Record.key →
      ctr ≤ k ∧ k < ctr + docs.length := by
  induction docs with
  | nil => intro ctr k hk; simp [documents_to_upload] at hk
  | cons d ds ih =>
    intro ctr k hk
    simp only [documents_to_upload, List.map_cons, List.mem_cons] at hk
    rcases hk with h | h
    · simp only [h]
      constructor
      · exact Nat.le_refl ctr
      · simp
    · have hb := ih (ctr + 1) k h
      constructor
      · omega
      · simp only [List.length_cons]
        omega

theorem documents_to_upload_keys_nodup (docs : List String) :
    ∀ ctr, ((documents_to_upload ctr docs).map Record.key).Nodup := by
  induction docs with
  | nil => intro ctr; simp [documents_to_upload]
  | cons d ds ih =>
    intro ctr
    simp only [documents_to_upload, List.map_cons]
    refine List.nodup_cons.mpr ⟨?_, ih (ctr + 1)⟩
    intro hmem
    have hb := documents_to_upload_key_bounds ds (ctr + 1) _ hmem
    simp at hb

theorem sidebar_handler_cases (net : Net) (st : SessionState) (w : World)
    (uploaded : Option String) (chunks : List String) :
    (sidebar_handler net st w uploaded chunks).1 = st ∨
      ((sidebar_handler net st w uploaded chunks).2.2.1 = IngestOutcome.ready ∧
        (sidebar_handler net st w uploaded chunks).1.rag_enabled = true ∧
        (sidebar_handler net st w uploaded chunks).1.last_uploaded_file = uploaded) := by
  cases uploaded with
  | none => exact Or.inl rfl
  | some name =>
    by_cases hn : st.last_uploaded_file = some name
    · left
      simp [sidebar_handler, hn]
    · simp only [sidebar_handler, if_neg hn]
      cases hc : (clear_azure_search_index net w.index).1 with
      | false => left; simp [hc]
      | true =>
        cases hu : (index_documents_to_azure_search net w.ctr
            (clear_azure_search_index net w.index).2.1 chunks).1 with
        | false => left; simp [hc, hu]
        | true => right; simp [hc, hu]

/- ------------------------------------------------------------------ -/
/- Claim theorems                                                      -/
/- ------------------------------------------------------------------ -/

/-- C1: `upload` with an empty chunk list does not error and is a no-op
producing zero records; with `n` chunks it produces exactly one record
per chunk, carrying the chunk's content, with pairwise distinct freshly
generated keys, in one bulk request; and two uploads of the same chunks
in sequence produce two independent record sets whose keys are disjoint
(`upload` is not idempotent). -/
theorem upload_one_record_per_chunk (ctr : Nat) (idx : List Record) (docs : List String) :
    index_documents_to_azure_search netOK ctr idx [] =
      (true, idx, ctr, [Request.bulkUpload []]) ∧
    index_documents_to_azure_search netOK ctr idx docs =
      (true, idx ++ documents_to_upload ctr docs, ctr + docs.length,
        [Request.bulkUpload (documents_to_upload ctr docs)]) ∧
    (documents_to_upload ctr docs).length = docs.length ∧
    (documents_to_upload ctr docs).map Record.content = docs ∧
    ((documents_to_upload ctr docs).map Record.key).Nodup ∧
    (index_documents_to_azure_search netOK
        (index_documents_to_azure_search netOK ctr idx docs).2.2.1
        (index_documents_to_azure_search netOK ctr idx docs).2.1 docs).2.1 =
      idx ++ documents_to_upload ctr docs ++ documents_to_upload (ctr + docs.length) docs ∧
    (∀ k ∈ (documents_to_upload ctr docs).map Record.key,
        k ∉ (documents_to_upload (ctr + docs.length) docs).map Record.key) := by
  refine ⟨?_, ?_, documents_to_upload_length docs ctr, documents_to_upload_contents docs ctr,
    documents_to_upload_keys_nodup docs ctr, ?_, ?_⟩
  · simp [index_documents_to_azure_search, netOK, documents_to_upload]
  · simp [index_documents_to_azure_search, netOK]
  · simp [index_documents_to_azure_search, netOK]
  · intro k h1 h2
    have b1 := documents_to_upload_key_bounds docs ctr k h1
    have b2 := documents_to_upload_key_bounds docs (ctr + docs.length) k h2
    omega

/-- C2: `clear_all` is idempotent.  On an empty index it returns `true`
issuing only the key-listing request, never a delete; a successful
`clear_all` leaves the index empty, so an immediately following
`clear_all` is a no-op returning `true` with only the listing request;
for every index state, `clear_all` composed with itself leaves the same
empty index as a single `clear_all`. -/
theorem clear_all_idempotent (idx : List Record) :
    clear_azure_search_index netOK [] = (true, [], [Request.listKeys]) ∧
    (clear_azure_search_index netOK idx).1 = true ∧
    (clear_azure_search_index netOK idx).2.1 = [] ∧
    clear_azure_search_index netOK (clear_azure_search_index netOK idx).2.1 =
      (true, [], [Request.listKeys]) := by
  cases idx with
  | nil => exact ⟨rfl, rfl, rfl, rfl⟩
  | cons r rs => exact ⟨rfl, rfl, rfl, rfl⟩

/-- C3: the Chunker concatenates the page texts with no separator
(skipping unextractable pages changes nothing), splits only on line
breaks so that concatenating the chunks' line groups in order reproduces
the original line sequence exactly, keeps a line longer than the maximum
intact in a chunk of its own, and produces zero chunks for an
empty/unextractable document.  The splitter is modelled from the spec
(see `split_plaintext_lines`). -/
theorem chunker_lossless (pages : List String) :
    extract_full_text pages = pages.foldl (fun r s => r ++ s) "" ∧
    (∀ lines : List String, (packLines 1000 lines).flatten = lines) ∧
    (∀ g ∈ packLines 1000 ((extract_full_text pages).splitOn "\n"),
        ∀ l ∈ g, 1000 < l.length → g = [l]) ∧
    (extract_full_text pages = "" → load_and_split pages = []) ∧
    (extract_full_text pages ≠ "" →
        load_and_split pages =
          (packLines 1000 ((extract_full_text pages).splitOn "\n")).map
            (String.intercalate "\n")) := by
  refine ⟨extract_full_text_eq pages, fun lines => packLines_join 1000 lines, ?_, ?_, ?_⟩
  · intro g hg l hl hlen
    exact goodChunk_oversize_alone 1000 g l (packLines_good 1000 _ g hg) hl hlen
  · intro h
    simp [load_and_split, split_plaintext_lines, h]
  · intro h
    simp [load_and_split, split_plaintext_lines, h]

/-- C4: on a successful search returning records, `build_context`
returns the records' content fields (a missing content field defaults to
the empty string, it does not fail) joined with exactly one blank-line
separator between adjacent entries in result order — the source's
`"\n\n".join` provably equals the spec's pairwise blank-line join — one
entry per record; an empty result set yields the empty string, which
differs from the failure message. -/
theorem build_context_success (docs : List (Option String)) :
    search_azure_ai (some docs) = spec_context_join (docs.map (fun d => d.getD "")) ∧
    (docs.map (fun d => d.getD "")).length = docs.length ∧
    search_azure_ai (some []) = "" ∧
    search_azure_ai (some []) ≠ search_failure_message := by
  refine ⟨?_, List.length_map docs _, rfl, ?_⟩
  · show String.intercalate "\n\n" (docs.map (fun d => d.getD "")) = _
    exact intercalate_eq_spec_context_join _
  · intro h
    exact absurd h (by decide)

/-- C5: when the search request fails, `build_context` returns the fixed
Korean failure message verbatim instead of raising, and the grounded
branch of the chat handler still issues a generation call with exactly
that string as the context — whatever the generation outcome, the
handler returns a well-defined state (it does not crash). -/
theorem search_failure_degrades (st : SessionState) (prompt : String)
    (gen : Except String String) (h : st.rag_enabled = true) :
    search_azure_ai none = search_failure_message ∧
    (chat_handler st prompt none gen).2 = GenCall.grounded prompt search_failure_message := by
  refine ⟨rfl, ?_⟩
  cases gen with
  | ok r => simp [chat_handler, h, search_azure_ai]
  | error e => simp [chat_handler, h, search_azure_ai]

/-- Witness for C5: a concrete grounded session whose search fails. -/
theorem search_failure_degrades_witness :
    (chat_handler ⟨true, some "doc.pdf", some []⟩ "질문" none (Except.ok "답변")).2 =
      GenCall.grounded "질문" search_failure_message :=
  (search_failure_degrades ⟨true, some "doc.pdf", some []⟩ "질문" (Except.ok "답변") rfl).2

/-- C6: remote request failures in clear and upload are converted to the
boolean `false` at the call site, and both embedded operations are total
functions — no exception propagates past the component boundary:
`clear_all` returns `true` exactly when the key listing succeeded and
the index was already empty or the bulk delete succeeded, and `upload`
returns `true` exactly when the single bulk upload request succeeds. -/
theorem remote_failures_to_bool (net : Net) (idx : List Record) (ctr : Nat)
    (docs : List String) :
    ((clear_azure_search_index net idx).1 = true ↔
      net.listFails = false ∧ (idx = [] ∨ net.deleteFails = false)) ∧
    ((index_documents_to_azure_search net ctr idx docs).1 = true ↔
      net.uploadFails = false) := by
  obtain ⟨lf, df, uf⟩ := net
  constructor
  · cases lf <;> cases df <;> cases idx <;> simp [clear_azure_search_index]
  · cases uf <;> simp [index_documents_to_azure_search]

/-- C7: when an ingestion attempt fails — `clear_all` returning false
(outcome `clearFailed`) or `upload` returning false (`uploadFailed`) —
the session state, and with it the RAG-enabled flag and the last
successfully ingested document identity, is exactly what it was before
the attempt (a previously enabled flag stays enabled pointing at the
old identity). -/
theorem ingest_failure_frame (net : Net) (st : SessionState) (w : World)
    (uploaded : Option String) (chunks : List String)
    (h : (sidebar_handler net st w uploaded chunks).2.2.1 = IngestOutcome.clearFailed ∨
      (sidebar_handler net st w uploaded chunks).2.2.1 = IngestOutcome.uploadFailed) :
    (sidebar_handler net st w uploaded chunks).1 = st ∧
    (sidebar_handler net st w uploaded chunks).1.rag_enabled = st.rag_enabled ∧
    (sidebar_handler net st w uploaded chunks).1.last_uploaded_file = st.last_uploaded_file := by
  rcases sidebar_handler_cases net st w uploaded chunks with h1 | h1
  · exact ⟨h1, by rw [h1], by rw [h1]⟩
  · rcases h with h2 | h2 <;> rw [h1.1] at h2 <;> exact absurd h2 (by simp)

/-- Witness for C7: a clear failure with a previously enabled flag. -/
theorem ingest_failure_frame_witness :
    (sidebar_handler ⟨true, false, false⟩ ⟨true, some "old.pdf", some []⟩ ⟨[], 0⟩
        (some "new.pdf") ["chunk"]).1 = ⟨true, some "old.pdf", some []⟩ :=
  (ingest_failure_frame ⟨true, false, false⟩ ⟨true, some "old.pdf", some []⟩ ⟨[], 0⟩
    (some "new.pdf") ["chunk"] (Or.inl (by decide))).1

/-- C8: supplying a document whose filename equals the last successfully
ingested identity is a no-op — the session state and the index are
untouched and no remote requests are issued, whatever the new file's
chunks (the comparison is on identity only, not content) — while a
supplied document whose identity differs, or an empty ingestion record,
always triggers ingestion (the outcome is never the no-op). -/
theorem same_identity_noop (net : Net) (st : SessionState) (w : World)
    (name : String) (chunks : List String)
    (h : st.last_uploaded_file = some name) :
    sidebar_handler net st w (some name) chunks = (st, w, IngestOutcome.noop, []) ∧
    (∀ name2, st.last_uploaded_file ≠ some name2 →
      (sidebar_handler net st w (some name2) chunks).2.2.1 ≠ IngestOutcome.noop) := by
  constructor
  · simp [sidebar_handler, h]
  · intro name2 hne
    simp only [sidebar_handler, if_neg hne]
    cases hc : (clear_azure_search_index net w.index).1 with
    | false => simp [hc]
    | true =>
      cases hu : (index_documents_to_azure_search net w.ctr
          (clear_azure_search_index net w.index).2.1 chunks).1 with
      | false => simp [hc, hu]
      | true => simp [hc, hu]

/-- Witness for C8: re-supplying the ingested filename with different
content is a no-op issuing no requests. -/
theorem same_identity_noop_witness :
    sidebar_handler netOK ⟨true, some "report.pdf", some []⟩ ⟨[], 0⟩
        (some "report.pdf") ["different content"] =
      (⟨true, some "report.pdf", some []⟩, ⟨[], 0⟩, IngestOutcome.noop, []) :=
  (same_identity_noop netOK ⟨true, some "report.pdf", some []⟩ ⟨[], 0⟩
    "report.pdf" ["different content"] rfl).1

/-- C9: the chunker writes the input to a transient, uniquely named
location and that location is removed on every exit path of extraction —
on success and when extraction or splitting raises — so the final file
system equals the initial one and no temp file survives the call. -/
theorem temp_file_scoped (fs : List String) (tmpPath : String)
    (extract : Except String (List String)) (h : tmpPath ∉ fs) :
    (load_and_split_pdf fs tmpPath extract).2 = fs ∧
    tmpPath ∉ (load_and_split_pdf fs tmpPath extract).2 := by
  have he : (fs ++ [tmpPath]).erase tmpPath = fs := by
    rw [List.erase_append_right _ h]
    simp
  cases extract with
  | ok pages =>
    refine ⟨he, ?_⟩
    show tmpPath ∉ (fs ++ [tmpPath]).erase tmpPath
    rw [he]
    exact h
  | error e =>
    refine ⟨he, ?_⟩
    show tmpPath ∉ (fs ++ [tmpPath]).erase tmpPath
    rw [he]
    exact h

/-- Witness for C9: a failing extraction still leaves the file system as
it was. -/
theorem temp_file_scoped_witness :
    (load_and_split_pdf ["report.pdf"] "tmp_ab12.pdf" (Except.error "broken pdf")).2 =
      ["report.pdf"] :=
  (temp_file_scoped ["report.pdf"] "tmp_ab12.pdf" (Except.error "broken pdf") (by decide)).1

/-- C10: the RAG-enabled flag is monotone within a session: once true it
stays true through every sidebar ingestion run (no-ops, failed clears,
failed uploads — even though a failed upload leaves the index cleared —
and successful re-ingestions) and through every chat turn (including
generation failures); no operation ever resets it to false. -/
theorem rag_enabled_monotone (net : Net) (st : SessionState) (w : World)
    (uploaded : Option String) (chunks : List String) (prompt : String)
    (searchResp : Option (List (Option String))) (gen : Except String String)
    (h : st.rag_enabled = true) :
    (sidebar_handler net st w uploaded chunks).1.rag_enabled = true ∧
    (chat_handler st prompt searchResp gen).1.rag_enabled = true := by
  constructor
  · rcases sidebar_handler_cases net st w uploaded chunks with h1 | h1
    · rw [h1]
      exact h
    · exact h1.2.1
  · cases gen with
    | ok r => simp [chat_handler, h]
    | error e => simp [chat_handler, h]

/-- Witness for C10: a failed clear attempt and a failed generation both
leave a previously enabled flag enabled. -/
theorem rag_enabled_monotone_witness :
    (sidebar_handler ⟨true, false, false⟩ ⟨true, some "a.pdf", some []⟩ ⟨[], 0⟩
        (some "b.pdf") []).1.rag_enabled = true ∧
    (chat_handler ⟨true, some "a.pdf", some []⟩ "질문" none
        (Except.error "boom")).1.rag_enabled = true :=
  ⟨(rag_enabled_monotone ⟨true, false, false⟩ ⟨true, some "a.pdf", some []⟩ ⟨[], 0⟩
      (some "b.pdf") [] "질문" none (Except.error "boom") rfl).1,
   (rag_enabled_monotone ⟨true, false, false⟩ ⟨true, some "a.pdf", some []⟩ ⟨[], 0⟩
      (some "b.pdf") [] "질문" none (Except.error "boom") rfl).2⟩

end Demo
